/-
Verification of the oneflow identity-allocation core
(`oneflow/core/job/id_manager.h`) and the CPU offset-to-nd-index kernel
(`oneflow/user/kernels/offset_to_ndindex_util.cpp`).

The header fixes the 64-bit id layout (sign 1 / machine 16 / device 8 /
task 39, `machine_id_bit_num_` = 16, `device_id_bit_num_` = 8,
`task_id_bit_num_` = 39) and gives `NewRegstDescId` inline as
`return regst_desc_id_count_++;`.  The bodies of the remaining member
functions live in `id_manager.cpp`, which is not part of the sampled
sources, so those operations are modelled from the specification text
(each such definition carries a doc comment saying so).  Machine integers
are modelled as `Nat`: every id produced by the scheme is a non-negative
signed 64-bit value (the top bit is proved to be zero below), so natural
number arithmetic coincides with the C++ `int64_t` arithmetic on all
values the program manipulates.
-/
import Mathlib

namespace Oneflow

/-! ### Bit layout constants, from `id_manager.h` lines 50-52 -/

def machine_id_bit_num : Nat := 16

def device_id_bit_num : Nat := 8

def task_id_bit_num : Nat := 39

/-! ### The bit-packed id codec -/

/-- Modelled from the spec: the encoding expression
`id = (m << 47) | (d << 39) | t` of section 4.2 (the body of the encode
path in `id_manager.cpp` is not among the sampled sources). -/
def packId (m d t : Nat) : Nat := (m <<< 47) ||| (d <<< 39) ||| t

/-- Modelled from the spec: encoding with the section 4.2 / 4.4 edge-case
policy that a field value exceeding its allotted bit width is a fatal
assertion failure (`none`), never a silently wrapped value. -/
def encode (m d t : Nat) : Option Nat :=
  if m < 2 ^ 16 ∧ d < 2 ^ 8 ∧ t < 2 ^ 39 then some (packId m d t) else none

/-- Modelled from the spec: `MachineId4ActorId(id) = (id >> 47) & 0xFFFF`
(declared in `id_manager.h` line 30; body in the unsampled
`id_manager.cpp`). -/
def MachineId4ActorId (actor_id : Nat) : Nat := (actor_id >>> 47) &&& 0xFFFF

/-- Modelled from the spec: `ThrdId4ActorId(id) = (id >> 39) & 0xFF`
(declared in `id_manager.h` line 31; body in the unsampled
`id_manager.cpp`). -/
def ThrdId4ActorId (actor_id : Nat) : Nat := (actor_id >>> 39) &&& 0xFF

/-- Modelled from the spec: the task-local projection of a packed id,
the low `task_id_bit_num_` = 39 bits. -/
def LocalId4ActorId (actor_id : Nat) : Nat := actor_id &&& (2 ^ 39 - 1)

/-! ### Arithmetic form of the codec -/

lemma two_pow_mul_add_lor (a b n : Nat) (hb : b < 2 ^ n) :
    a <<< n ||| b = 2 ^ n * a + b := by
  apply Nat.eq_of_testBit_eq
  intro j
  rw [Nat.testBit_or, Nat.testBit_mul_pow_two_add a hb j]
  by_cases hj : j < n
  · simp [Nat.testBit_shiftLeft, Nat.not_le_of_lt hj, hj]
  · have hnj : n ≤ j := Nat.le_of_not_lt hj
    have hbj : b.testBit j = false :=
      Nat.testBit_lt_two_pow
        (lt_of_lt_of_le hb (Nat.pow_le_pow_right (by norm_num) hnj))
    simp [Nat.testBit_shiftLeft, hnj, hj, hbj]

lemma packId_eq_arith (m d t : Nat) (hd : d < 2 ^ 8) (ht : t < 2 ^ 39) :
    packId m d t = m * 2 ^ 47 + d * 2 ^ 39 + t := by
  unfold packId
  rw [Nat.lor_assoc]
  have h1 : d <<< 39 ||| t = 2 ^ 39 * d + t := two_pow_mul_add_lor d t 39 ht
  have h2 : 2 ^ 39 * d + t < 2 ^ 47 := by omega
  rw [h1, two_pow_mul_add_lor m (2 ^ 39 * d + t) 47 h2]
  ring

lemma MachineId4ActorId_packId (m d t : Nat)
    (hm : m < 2 ^ 16) (hd : d < 2 ^ 8) (ht : t < 2 ^ 39) :
    MachineId4ActorId (packId m d t) = m := by
  rw [packId_eq_arith m d t hd ht]
  unfold MachineId4ActorId
  have hmask : (0xFFFF : Nat) = 2 ^ 16 - 1 := by norm_num
  rw [hmask, Nat.and_pow_two_sub_one_eq_mod, Nat.shiftRight_eq_div_pow]
  omega

lemma ThrdId4ActorId_packId (m d t : Nat)
    (hd : d < 2 ^ 8) (ht : t < 2 ^ 39) :
    ThrdId4ActorId (packId m d t) = d := by
  rw [packId_eq_arith m d t hd ht]
  unfold ThrdId4ActorId
  have hmask : (0xFF : Nat) = 2 ^ 8 - 1 := by norm_num
  rw [hmask, Nat.and_pow_two_sub_one_eq_mod, Nat.shiftRight_eq_div_pow]
  omega

lemma LocalId4ActorId_packId (m d t : Nat)
    (hd : d < 2 ^ 8) (ht : t < 2 ^ 39) :
    LocalId4ActorId (packId m d t) = t := by
  rw [packId_eq_arith m d t hd ht]
  unfold LocalId4ActorId
  rw [Nat.and_pow_two_sub_one_eq_mod]
  omega

lemma packId_lt_two_pow_63 (m d t : Nat)
    (hm : m < 2 ^ 16) (hd : d < 2 ^ 8) (ht : t < 2 ^ 39) :
    packId m d t < 2 ^ 63 := by
  rw [packId_eq_arith m d t hd ht]
  omega

lemma encode_eq_some (m d t : Nat)
    (hm : m < 2 ^ 16) (hd : d < 2 ^ 8) (ht : t < 2 ^ 39) :
    encode m d t = some (packId m d t) := by
  unfold encode
  rw [if_pos ⟨hm, hd, ht⟩]

/-! ### Claim theorems about the codec -/

/-- Claim C1: for every in-range `(m, d, t)` the decode projections of the
encoded 64-bit id recover exactly the three fields:
`MachineId4ActorId`, `ThrdId4ActorId` and the local-id projection invert
the encoding. -/
theorem encode_decode_roundtrip (m d t : Nat)
    (hm : m < 2 ^ 16) (hd : d < 2 ^ 8) (ht : t < 2 ^ 39) :
    encode m d t = some (packId m d t) ∧
    MachineId4ActorId (packId m d t) = m ∧
    ThrdId4ActorId (packId m d t) = d ∧
    LocalId4ActorId (packId m d t) = t :=
  ⟨encode_eq_some m d t hm hd ht,
   MachineId4ActorId_packId m d t hm hd ht,
   ThrdId4ActorId_packId m d t hd ht,
   LocalId4ActorId_packId m d t hd ht⟩

theorem encode_decode_roundtrip_witness :
    (3 < 2 ^ 16 ∧ 5 < 2 ^ 8 ∧ 7 < 2 ^ 39) ∧
    (encode 3 5 7 = some (packId 3 5 7) ∧
     MachineId4ActorId (packId 3 5 7) = 3 ∧
     ThrdId4ActorId (packId 3 5 7) = 5 ∧
     LocalId4ActorId (packId 3 5 7) = 7) :=
  ⟨by decide,
   encode_decode_roundtrip 3 5 7 (by decide) (by decide) (by decide)⟩

/-- Claim C2: the codec follows the 1/16/8/39 layout: for in-range
`(m, d, t)` the encoded id is `(m <<< 47) ||| (d <<< 39) ||| t` and has a
zero top bit (it is below `2 ^ 63`, hence non-negative as a signed 64-bit
value), and the stateless decode operations are exactly
`(id >>> 47) &&& 0xFFFF` and `(id >>> 39) &&& 0xFF` on every id. -/
theorem bit_layout (m d t : Nat)
    (hm : m < 2 ^ 16) (hd : d < 2 ^ 8) (ht : t < 2 ^ 39) :
    encode m d t = some ((m <<< 47) ||| (d <<< 39) ||| t) ∧
    packId m d t < 2 ^ 63 ∧
    (∀ actor_id : Nat,
      MachineId4ActorId actor_id = (actor_id >>> 47) &&& 0xFFFF) ∧
    (∀ actor_id : Nat,
      ThrdId4ActorId actor_id = (actor_id >>> 39) &&& 0xFF) :=
  ⟨encode_eq_some m d t hm hd ht,
   packId_lt_two_pow_63 m d t hm hd ht,
   fun _ => rfl,
   fun _ => rfl⟩

theorem bit_layout_witness :
    (3 < 2 ^ 16 ∧ 5 < 2 ^ 8 ∧ 7 < 2 ^ 39) ∧
    (encode 3 5 7 = some ((3 <<< 47) ||| (5 <<< 39) ||| 7) ∧
     packId 3 5 7 < 2 ^ 63 ∧
     (∀ actor_id : Nat,
       MachineId4ActorId actor_id = (actor_id >>> 47) &&& 0xFFFF) ∧
     (∀ actor_id : Nat,
       ThrdId4ActorId actor_id = (actor_id >>> 39) &&& 0xFF)) :=
  ⟨by decide, bit_layout 3 5 7 (by decide) (by decide) (by decide)⟩

/-! ### The identity registry state -/

/-- The mutable state of `IDMgr` (`id_manager.h` lines 36-45).  The two
hash maps `machine_name2machine_id_` / `machine_id2machine_name_` are
represented by the ordered machine-name list they are built from (the
spec, section 3, assigns `machine_id` by enumeration order of the input
topology descriptor); the per-key hash map `thread_id2num_of_tasks_` and
the two offset vectors are represented as total functions defaulting to
zero.  `persistence_thrd_num` is the capacity of the persistence-thread
band, modelled from the spec's section 4.3 band ordering (comm-net id,
then the persistence band, then the boxing band). -/
structure IDMgr where
  machine_names : List String
  device_num_per_machine : Nat
  persistence_thrd_num : Nat
  regst_desc_id_count : Nat
  thread_id2num_of_tasks : Nat × Nat → Nat
  persistence_thrd_offset : Nat → Nat
  boxing_thrd_offset : Nat → Nat

/-- Modelled from the spec: topology ingestion (section 4.1) builds the
registry from the ordered machine-name list and the per-machine device
count, with every counter starting at zero (the `IDMgr` constructor lives
in the unsampled `id_manager.cpp`). -/
def initIDMgr (names : List String) (devNum persistenceNum : Nat) : IDMgr :=
  { machine_names := names
    device_num_per_machine := devNum
    persistence_thrd_num := persistenceNum
    regst_desc_id_count := 0
    thread_id2num_of_tasks := fun _ => 0
    persistence_thrd_offset := fun _ => 0
    boxing_thrd_offset := fun _ => 0 }

/-- Position of a name in the ordered machine-name list: the model of the
`machine_name2machine_id_` lookup, `none` standing for the fatal
unknown-name error. -/
def machineIdOf (names : List String) (name : String) : Option Nat :=
  match names with
  | [] => none
  | n :: rest =>
      if n = name then some 0 else (machineIdOf rest name).map (· + 1)

/-- Modelled from the spec: `MachineID4MachineName(name)` returns the
integer id and fails fatally (`none`) on an unknown name (section 4.1). -/
def MachineID4MachineName (s : IDMgr) (name : String) : Option Nat :=
  machineIdOf s.machine_names name

/-- Modelled from the spec: `MachineName4MachineId(id)` returns the name
and fails fatally (`none`) when `id` is outside the registered range
(section 4.1). -/
def MachineName4MachineId (s : IDMgr) (machine_id : Nat) : Option String :=
  s.machine_names[machine_id]?

/-- Modelled from the spec: `NewTaskId(machine_id, thrd_id)` reads the
per-`(machine, thread)` counter (zero-initialised), uses it as the new
task's local id, increments the stored counter, and encodes the full id
via the section 4.2 codec; the encode failure (`none`) is the fatal
39-bit-capacity assertion of section 4.4. -/
def NewTaskId (s : IDMgr) (machine_id thrd_id : Nat) :
    Option (Nat × IDMgr) :=
  let cnt := s.thread_id2num_of_tasks (machine_id, thrd_id)
  (encode machine_id thrd_id cnt).map fun id =>
    (id,
     { s with
       thread_id2num_of_tasks := fun k =>
         if k = (machine_id, thrd_id) then cnt + 1
         else s.thread_id2num_of_tasks k })

/-- `NewRegstDescId`, inline in `id_manager.h` line 26:
`return regst_desc_id_count_++;` — returns the current counter value and
increments it. -/
def NewRegstDescId (s : IDMgr) : Nat × IDMgr :=
  (s.regst_desc_id_count,
   { s with regst_desc_id_count := s.regst_desc_id_count + 1 })

/-- Modelled from the spec: `CommNetThrdId()` returns the fixed reserved
id directly above the device band `[0, device_count_per_machine)`, with
no mutation, the same value on every machine (section 4.3). -/
def CommNetThrdId (s : IDMgr) : Nat := s.device_num_per_machine

/-- Modelled from the spec: `AllocatePersistenceThrdId(machine_id)`
returns the next unused id of the persistence band (which starts right
above the comm-net id) for that machine and advances only that machine's
offset (section 4.3). -/
def AllocatePersistenceThrdId (s : IDMgr) (machine_id : Nat) :
    Nat × IDMgr :=
  let off := s.persistence_thrd_offset machine_id
  (s.device_num_per_machine + 1 + off,
   { s with
     persistence_thrd_offset := fun m =>
       if m = machine_id then off + 1 else s.persistence_thrd_offset m })

/-- Modelled from the spec: `AllocateBoxingThrdId(machine_id)` returns the
next unused id of the boxing band (which starts right above the
persistence band) for that machine and advances only that machine's
offset (section 4.3). -/
def AllocateBoxingThrdId (s : IDMgr) (machine_id : Nat) : Nat × IDMgr :=
  let off := s.boxing_thrd_offset machine_id
  (s.device_num_per_machine + 1 + s.persistence_thrd_num + off,
   { s with
     boxing_thrd_offset := fun m =>
       if m = machine_id then off + 1 else s.boxing_thrd_offset m })

/-! ### Iterated call sequences -/

/-- The ids and final state of `n` successive `NewTaskId` calls on one
`(machine_id, thrd_id)` key, `none` if any call hits the fatal
capacity assertion. -/
def newTaskIdN (s : IDMgr) (machine_id thrd_id : Nat) :
    Nat → Option (List Nat × IDMgr)
  | 0 => some ([], s)
  | n + 1 =>
    match newTaskIdN s machine_id thrd_id n with
    | none => none
    | some (ids, s1) =>
      match NewTaskId s1 machine_id thrd_id with
      | none => none
      | some (id, s2) => some (ids ++ [id], s2)

/-- The values and final state of `n` successive `NewRegstDescId` calls. -/
def newRegstDescIdN (s : IDMgr) : Nat → List Nat × IDMgr
  | 0 => ([], s)
  | n + 1 =>
    let p := newRegstDescIdN s n
    let q := NewRegstDescId p.2
    (p.1 ++ [q.1], q.2)

/-- The ids and final state of `n` successive `AllocatePersistenceThrdId`
calls for one machine. -/
def allocPersistenceN (s : IDMgr) (machine_id : Nat) :
    Nat → List Nat × IDMgr
  | 0 => ([], s)
  | n + 1 =>
    let p := allocPersistenceN s machine_id n
    let q := AllocatePersistenceThrdId p.2 machine_id
    (p.1 ++ [q.1], q.2)

/-- The ids and final state of `n` successive `AllocateBoxingThrdId`
calls for one machine. -/
def allocBoxingN (s : IDMgr) (machine_id : Nat) : Nat → List Nat × IDMgr
  | 0 => ([], s)
  | n + 1 =>
    let p := allocBoxingN s machine_id n
    let q := AllocateBoxingThrdId p.2 machine_id
    (p.1 ++ [q.1], q.2)

/-! ### Behaviour of iterated `NewTaskId` -/

lemma newTaskIdN_spec (s : IDMgr) (m d : Nat)
    (hm : m < 2 ^ 16) (hd : d < 2 ^ 8) (n : Nat) :
    s.thread_id2num_of_tasks (m, d) + n ≤ 2 ^ 39 →
    ∃ s' : IDMgr,
      newTaskIdN s m d n =
        some ((List.range n).map
          (fun i => packId m d (s.thread_id2num_of_tasks (m, d) + i)),
          s') ∧
      s'.thread_id2num_of_tasks (m, d) =
        s.thread_id2num_of_tasks (m, d) + n ∧
      (∀ k, k ≠ (m, d) →
        s'.thread_id2num_of_tasks k = s.thread_id2num_of_tasks k) ∧
      s'.machine_names = s.machine_names ∧
      s'.device_num_per_machine = s.device_num_per_machine ∧
      s'.persistence_thrd_num = s.persistence_thrd_num ∧
      s'.regst_desc_id_count = s.regst_desc_id_count ∧
      s'.persistence_thrd_offset = s.persistence_thrd_offset ∧
      s'.boxing_thrd_offset = s.boxing_thrd_offset := by
  induction n with
  | zero =>
    intro _
    exact ⟨s, by simp [newTaskIdN], rfl, fun k _ => rfl, rfl, rfl, rfl,
      rfl, rfl, rfl⟩
  | succ n ih =>
    intro hn
    obtain ⟨s1, heq, hcnt, hframe, hnm, hdev, hpn, hrg, hpo, hbo⟩ :=
      ih (by omega)
    have hlt : s.thread_id2num_of_tasks (m, d) + n < 2 ^ 39 := by omega
    have henc : NewTaskId s1 m d =
        some (packId m d (s.thread_id2num_of_tasks (m, d) + n),
          { s1 with thread_id2num_of_tasks := fun k =>
              if k = (m, d) then
                s.thread_id2num_of_tasks (m, d) + (n + 1)
              else s1.thread_id2num_of_tasks k }) := by
      simp only [NewTaskId, hcnt]
      rw [encode_eq_some m d _ hm hd hlt]
      rfl
    refine ⟨{ s1 with thread_id2num_of_tasks := fun k =>
        if k = (m, d) then s.thread_id2num_of_tasks (m, d) + (n + 1)
        else s1.thread_id2num_of_tasks k }, ?_, by simp, ?_, hnm, hdev,
      hpn, hrg, hpo, hbo⟩
    · simp only [newTaskIdN, heq, henc, List.range_succ, List.map_append,
        List.map_cons, List.map_nil]
    · intro k hk
      simp only [if_neg hk]
      exact hframe k hk

/-- Claim C3: from a state whose task counter for `(m, d)` is zero, a
sequence of `NewTaskId` calls on that key succeeds and returns pairwise
distinct ids whose decoded local ids are `0, 1, 2, ...` in order and
whose decoded thread id is `d`; instantiated at `(0, 2)` three times by
the accompanying witness. -/
theorem newTaskId_sequence (s : IDMgr) (m d n : Nat)
    (hm : m < 2 ^ 16) (hd : d < 2 ^ 8)
    (h0 : s.thread_id2num_of_tasks (m, d) = 0) (hn : n ≤ 2 ^ 39) :
    ∃ ids s', newTaskIdN s m d n = some (ids, s') ∧
      ids.map LocalId4ActorId = List.range n ∧
      (∀ id ∈ ids, ThrdId4ActorId id = d) ∧
      ids.Nodup := by
  obtain ⟨s', heq, -, -, -, -, -, -, -, -⟩ :=
    newTaskIdN_spec s m d hm hd n (by omega)
  rw [h0] at heq
  simp only [Nat.zero_add] at heq
  have hmapeq :
      ((List.range n).map (fun i => packId m d i)).map LocalId4ActorId =
        List.range n := by
    rw [List.map_map]
    have h1 : ∀ i ∈ List.range n,
        (LocalId4ActorId ∘ fun i => packId m d i) i = i := by
      intro i hi
      have hi' : i < n := List.mem_range.mp hi
      exact LocalId4ActorId_packId m d i hd (by omega)
    rw [List.map_congr_left h1]
    simp
  refine ⟨_, s', heq, hmapeq, ?_, ?_⟩
  · intro id hid
    obtain ⟨i, hi, rfl⟩ := List.mem_map.mp hid
    have hi' : i < n := List.mem_range.mp hi
    exact ThrdId4ActorId_packId m d i hd (by omega)
  · have h2 : (((List.range n).map (fun i => packId m d i)).map
        LocalId4ActorId).Nodup := by
      rw [hmapeq]; exact List.nodup_range n
    exact h2.of_map

theorem newTaskId_sequence_witness :
    ((0 : Nat) < 2 ^ 16 ∧ (2 : Nat) < 2 ^ 8 ∧
      (initIDMgr [ "m0" ] 4 2).thread_id2num_of_tasks (0, 2) = 0 ∧
      (3 : Nat) ≤ 2 ^ 39) ∧
    (∃ ids s', newTaskIdN (initIDMgr [ "m0" ] 4 2) 0 2 3 = some (ids, s') ∧
      ids.map LocalId4ActorId = List.range 3 ∧
      (∀ id ∈ ids, ThrdId4ActorId id = 2) ∧
      ids.Nodup) :=
  ⟨⟨by decide, by decide, rfl, by decide⟩,
   newTaskId_sequence (initIDMgr [ "m0" ] 4 2) 0 2 3 (by decide) (by decide)
     rfl (by decide)⟩

/-- Claim C10: `NewTaskId (m, d)` mutates only its own key's counter — it
increments that counter and leaves every other `(machine, thread)`
counter, the register-descriptor counter, the thread-role offsets, and
the topology tables unchanged. -/
theorem newTaskId_frame (s : IDMgr) (m d : Nat)
    (hm : m < 2 ^ 16) (hd : d < 2 ^ 8)
    (hc : s.thread_id2num_of_tasks (m, d) < 2 ^ 39) :
    ∃ id s', NewTaskId s m d = some (id, s') ∧
      id = packId m d (s.thread_id2num_of_tasks (m, d)) ∧
      s'.thread_id2num_of_tasks (m, d) =
        s.thread_id2num_of_tasks (m, d) + 1 ∧
      (∀ k, k ≠ (m, d) →
        s'.thread_id2num_of_tasks k = s.thread_id2num_of_tasks k) ∧
      s'.regst_desc_id_count = s.regst_desc_id_count ∧
      s'.persistence_thrd_offset = s.persistence_thrd_offset ∧
      s'.boxing_thrd_offset = s.boxing_thrd_offset ∧
      s'.machine_names = s.machine_names ∧
      s'.device_num_per_machine = s.device_num_per_machine ∧
      s'.persistence_thrd_num = s.persistence_thrd_num := by
  refine ⟨packId m d (s.thread_id2num_of_tasks (m, d)),
    { s with thread_id2num_of_tasks := fun k =>
        if k = (m, d) then s.thread_id2num_of_tasks (m, d) + 1
        else s.thread_id2num_of_tasks k },
    ?_, rfl, by simp, ?_, rfl, rfl, rfl, rfl, rfl, rfl⟩
  · simp only [NewTaskId]
    rw [encode_eq_some m d _ hm hd hc]
    rfl
  · intro k hk
    simp only [if_neg hk]

theorem newTaskId_frame_witness :
    ((0 : Nat) < 2 ^ 16 ∧ (2 : Nat) < 2 ^ 8 ∧
      (initIDMgr [ "m0" ] 4 2).thread_id2num_of_tasks (0, 2) < 2 ^ 39) ∧
    (∃ id s', NewTaskId (initIDMgr [ "m0" ] 4 2) 0 2 = some (id, s') ∧
      id = packId 0 2 ((initIDMgr [ "m0" ] 4 2).thread_id2num_of_tasks
        (0, 2)) ∧
      s'.thread_id2num_of_tasks (0, 2) =
        (initIDMgr [ "m0" ] 4 2).thread_id2num_of_tasks (0, 2) + 1 ∧
      (∀ k, k ≠ ((0 : Nat), (2 : Nat)) →
        s'.thread_id2num_of_tasks k =
          (initIDMgr [ "m0" ] 4 2).thread_id2num_of_tasks k) ∧
      s'.regst_desc_id_count =
        (initIDMgr [ "m0" ] 4 2).regst_desc_id_count ∧
      s'.persistence_thrd_offset =
        (initIDMgr [ "m0" ] 4 2).persistence_thrd_offset ∧
      s'.boxing_thrd_offset =
        (initIDMgr [ "m0" ] 4 2).boxing_thrd_offset ∧
      s'.machine_names = (initIDMgr [ "m0" ] 4 2).machine_names ∧
      s'.device_num_per_machine =
        (initIDMgr [ "m0" ] 4 2).device_num_per_machine ∧
      s'.persistence_thrd_num =
        (initIDMgr [ "m0" ] 4 2).persistence_thrd_num) :=
  ⟨⟨by decide, by decide, by decide⟩,
   newTaskId_frame (initIDMgr [ "m0" ] 4 2) 0 2 (by decide) (by decide)
     (by decide)⟩

/-- Claim C8: a field value that does not fit its allotted bit width is
rejected by the encoder (`none`, the model of the fatal assertion), never
silently wrapped, and `NewTaskId` fails rather than wrapping once the
per-key counter reaches the 39-bit local-id capacity. -/
theorem encode_width_overflow (m d t : Nat) (s : IDMgr)
    (h : ¬(m < 2 ^ 16 ∧ d < 2 ^ 8 ∧ t < 2 ^ 39))
    (hcnt : 2 ^ 39 ≤ s.thread_id2num_of_tasks (m, d)) :
    encode m d t = none ∧ NewTaskId s m d = none := by
  constructor
  · unfold encode
    rw [if_neg h]
  · simp only [NewTaskId]
    have hn : encode m d (s.thread_id2num_of_tasks (m, d)) = none := by
      unfold encode
      rw [if_neg]
      rintro ⟨-, -, h3⟩
      omega
    rw [hn]
    rfl

/-- A registry state whose `(0, 0)` task counter sits at the 39-bit
capacity, used to witness the overflow behaviour. -/
def saturatedIDMgr : IDMgr :=
  { initIDMgr [ "m0" ] 4 2 with
    thread_id2num_of_tasks := fun _ => 2 ^ 39 }

theorem encode_width_overflow_witness :
    (¬((0 : Nat) < 2 ^ 16 ∧ (0 : Nat) < 2 ^ 8 ∧
        (2 : Nat) ^ 39 < 2 ^ 39) ∧
      2 ^ 39 ≤ saturatedIDMgr.thread_id2num_of_tasks (0, 0)) ∧
    (encode 0 0 (2 ^ 39) = none ∧ NewTaskId saturatedIDMgr 0 0 = none) :=
  ⟨⟨by decide, by decide⟩,
   encode_width_overflow 0 0 (2 ^ 39) saturatedIDMgr (by decide)
     (by decide)⟩

/-! ### Behaviour of iterated `NewRegstDescId` -/

lemma newRegstDescIdN_spec (s : IDMgr) (n : Nat) :
    (newRegstDescIdN s n).1 =
      (List.range n).map (fun i => s.regst_desc_id_count + i) ∧
    (newRegstDescIdN s n).2.regst_desc_id_count =
      s.regst_desc_id_count + n := by
  induction n with
  | zero => exact ⟨by simp [newRegstDescIdN], rfl⟩
  | succ n ih =>
    obtain ⟨h1, h2⟩ := ih
    constructor
    · simp only [newRegstDescIdN, NewRegstDescId, h1, h2,
        List.range_succ, List.map_append, List.map_cons, List.map_nil]
    · simp only [newRegstDescIdN, NewRegstDescId, h2]
      omega

/-- Claim C5: from the freshly constructed registry, the values returned
by successive `NewRegstDescId` calls are exactly `0, 1, 2, ...`: the
`n`-call sequence returns `List.range n` (so the `i`-th call returns `i`,
values strictly increase and are never reused) and leaves the global
counter at `n`; moreover every single call returns the current counter
and increments it. -/
theorem regst_desc_id_monotonic (names : List String)
    (devNum pNum n : Nat) :
    (newRegstDescIdN (initIDMgr names devNum pNum) n).1 = List.range n ∧
    (newRegstDescIdN
      (initIDMgr names devNum pNum) n).2.regst_desc_id_count = n ∧
    List.Pairwise (· < ·)
      (newRegstDescIdN (initIDMgr names devNum pNum) n).1 ∧
    (∀ i, i < n →
      ((newRegstDescIdN (initIDMgr names devNum pNum) n).1)[i]? =
        some i) ∧
    (∀ s : IDMgr, (NewRegstDescId s).1 = s.regst_desc_id_count ∧
      (NewRegstDescId s).2.regst_desc_id_count =
        s.regst_desc_id_count + 1) := by
  obtain ⟨h1, h2⟩ := newRegstDescIdN_spec (initIDMgr names devNum pNum) n
  have hr : (newRegstDescIdN (initIDMgr names devNum pNum) n).1 =
      List.range n := by
    rw [h1]
    simp [initIDMgr]
  refine ⟨hr, by simpa [initIDMgr] using h2, ?_, ?_, fun s => ⟨rfl, rfl⟩⟩
  · rw [hr]
    exact List.pairwise_lt_range n
  · intro i hi
    rw [hr]
    exact List.getElem?_range hi

theorem regst_desc_id_monotonic_witness :
    (newRegstDescIdN (initIDMgr [ "m0" ] 4 2) 3).1 = List.range 3 ∧
    (newRegstDescIdN (initIDMgr [ "m0" ] 4 2) 3).2.regst_desc_id_count
      = 3 ∧
    List.Pairwise (· < ·) (newRegstDescIdN (initIDMgr [ "m0" ] 4 2) 3).1 ∧
    (∀ i, i < 3 →
      ((newRegstDescIdN (initIDMgr [ "m0" ] 4 2) 3).1)[i]? = some i) ∧
    (∀ s : IDMgr, (NewRegstDescId s).1 = s.regst_desc_id_count ∧
      (NewRegstDescId s).2.regst_desc_id_count =
        s.regst_desc_id_count + 1) :=
  regst_desc_id_monotonic [ "m0" ] 4 2 3

/-! ### The machine name / machine id tables -/

lemma machineIdOf_eq_none_of_not_mem (names : List String) (name : String)
    (h : name ∉ names) : machineIdOf names name = none := by
  induction names with
  | nil => rfl
  | cons hd tl ih =>
    simp only [List.mem_cons, not_or] at h
    have hne : hd ≠ name := fun hc => h.1 hc.symm
    simp only [machineIdOf, if_neg hne, ih h.2]
    rfl

lemma getElem?_eq_some_of_machineIdOf (names : List String)
    (name : String) (i : Nat) (h : machineIdOf names name = some i) :
    names[i]? = some name := by
  induction names generalizing i with
  | nil => simp [machineIdOf] at h
  | cons hd tl ih =>
    by_cases hh : hd = name
    · simp only [machineIdOf, if_pos hh] at h
      obtain rfl : (0 : Nat) = i := Option.some_injective _ h
      simpa using hh
    · simp only [machineIdOf, if_neg hh] at h
      obtain ⟨j, hj, rfl⟩ := Option.map_eq_some.mp h
      simpa using ih j hj

lemma machineIdOf_getElem (names : List String) (hnd : names.Nodup)
    (i : Nat) (hi : i < names.length) :
    machineIdOf names (names.get ⟨i, hi⟩) = some i := by
  induction names generalizing i with
  | nil => simp at hi
  | cons hd tl ih =>
    match i with
    | 0 => simp [machineIdOf]
    | j + 1 =>
      have hj : j < tl.length := by simpa using hi
      have hmem : tl.get ⟨j, hj⟩ ∈ tl := List.get_mem tl j hj
      have hne : hd ≠ tl.get ⟨j, hj⟩ := by
        intro hcontra
        exact (List.nodup_cons.mp hnd).1 (hcontra ▸ hmem)
      have : (hd :: tl).get ⟨j + 1, hi⟩ = tl.get ⟨j, hj⟩ := rfl
      rw [this]
      simp only [machineIdOf, if_neg hne,
        ih (List.nodup_cons.mp hnd).2 j hj]
      rfl

/-- Claim C6: on a topology with pairwise distinct machine names, the
name/id mapping of the registry is a bijection: id-to-name followed by
name-to-id is the identity on `[0, machine_count)`, name-to-id followed
by id-to-name is the identity on registered names, and exactly the ids
in `[0, machine_count)` have a name. -/
theorem machine_name_id_bijection (names : List String)
    (devNum pNum : Nat) (hnd : names.Nodup) :
    (∀ i, i < names.length →
      (MachineName4MachineId (initIDMgr names devNum pNum) i).bind
        (MachineID4MachineName (initIDMgr names devNum pNum)) =
          some i) ∧
    (∀ name ∈ names,
      (MachineID4MachineName (initIDMgr names devNum pNum) name).bind
        (MachineName4MachineId (initIDMgr names devNum pNum)) =
          some name) ∧
    (∀ i, (MachineName4MachineId
        (initIDMgr names devNum pNum) i).isSome ↔ i < names.length) := by
  refine ⟨?_, ?_, ?_⟩
  · intro i hi
    have hget : names[i]? = some (names.get ⟨i, hi⟩) := by
      simp [List.getElem?_eq_getElem hi]
    simp only [MachineName4MachineId, initIDMgr, hget, Option.some_bind,
      MachineID4MachineName]
    exact machineIdOf_getElem names hnd i hi
  · intro name hmem
    obtain ⟨⟨i, hi⟩, rfl⟩ := List.mem_iff_get.mp hmem
    simp only [MachineID4MachineName, initIDMgr,
      machineIdOf_getElem names hnd i hi, MachineName4MachineId,
      Option.some_bind]
    simp [List.getElem?_eq_getElem hi]
  · intro i
    simp only [MachineName4MachineId, initIDMgr]
    constructor
    · intro hs
      by_contra hlt
      rw [List.getElem?_eq_none (Nat.le_of_not_lt hlt)] at hs
      simp at hs
    · intro hlt
      rw [List.getElem?_eq_getElem hlt]
      rfl

theorem machine_name_id_bijection_witness :
    [ "m0", "m1" ].Nodup ∧
    ((∀ i, i < ([ "m0", "m1" ] : List String).length →
      (MachineName4MachineId (initIDMgr [ "m0", "m1" ] 4 2) i).bind
        (MachineID4MachineName (initIDMgr [ "m0", "m1" ] 4 2)) =
          some i) ∧
    (∀ name ∈ ([ "m0", "m1" ] : List String),
      (MachineID4MachineName (initIDMgr [ "m0", "m1" ] 4 2) name).bind
        (MachineName4MachineId (initIDMgr [ "m0", "m1" ] 4 2)) =
          some name) ∧
    (∀ i, (MachineName4MachineId
        (initIDMgr [ "m0", "m1" ] 4 2) i).isSome ↔
          i < ([ "m0", "m1" ] : List String).length)) :=
  ⟨by decide, machine_name_id_bijection [ "m0", "m1" ] 4 2 (by decide)⟩

/-- Claim C7: `MachineID4MachineName` fails fatally (`none`) on every
name that was not registered at topology ingestion, and
`MachineName4MachineId` fails fatally on every id outside
`[0, machine_count)`; the witness instantiates the 2-machine topology
with the out-of-range id `99`. -/
theorem machine_lookup_failure (names : List String) (devNum pNum : Nat)
    (name : String) (i : Nat) :
    (name ∉ names →
      MachineID4MachineName (initIDMgr names devNum pNum) name = none) ∧
    (names.length ≤ i →
      MachineName4MachineId (initIDMgr names devNum pNum) i = none) := by
  constructor
  · intro h
    exact machineIdOf_eq_none_of_not_mem names name h
  · intro h
    simp [MachineName4MachineId, initIDMgr, List.getElem?_eq_none h]

theorem machine_lookup_failure_witness :
    ("m9" ∉ ([ "m0", "m1" ] : List String) ∧
      ([ "m0", "m1" ] : List String).length ≤ 99) ∧
    (MachineID4MachineName (initIDMgr [ "m0", "m1" ] 4 2) ("m9") =
        none ∧
      MachineName4MachineId (initIDMgr [ "m0", "m1" ] 4 2) 99 = none) :=
  ⟨⟨by decide, by decide⟩,
   ⟨(machine_lookup_failure [ "m0", "m1" ] 4 2 ("m9") 99).1 (by decide),
    (machine_lookup_failure [ "m0", "m1" ] 4 2 ("m9") 99).2 (by decide)⟩⟩

/-! ### Behaviour of the thread-role allocators -/

lemma allocPersistenceN_spec (s : IDMgr) (mid n : Nat) :
    (allocPersistenceN s mid n).1 =
      (List.range n).map (fun i => s.device_num_per_machine + 1 +
        (s.persistence_thrd_offset mid + i)) ∧
    (allocPersistenceN s mid n).2.persistence_thrd_offset mid =
      s.persistence_thrd_offset mid + n ∧
    (∀ m, m ≠ mid →
      (allocPersistenceN s mid n).2.persistence_thrd_offset m =
        s.persistence_thrd_offset m) ∧
    (allocPersistenceN s mid n).2.machine_names = s.machine_names ∧
    (allocPersistenceN s mid n).2.device_num_per_machine =
      s.device_num_per_machine ∧
    (allocPersistenceN s mid n).2.persistence_thrd_num =
      s.persistence_thrd_num ∧
    (allocPersistenceN s mid n).2.regst_desc_id_count =
      s.regst_desc_id_count ∧
    (allocPersistenceN s mid n).2.boxing_thrd_offset =
      s.boxing_thrd_offset ∧
    (allocPersistenceN s mid n).2.thread_id2num_of_tasks =
      s.thread_id2num_of_tasks := by
  induction n with
  | zero =>
    exact ⟨by simp [allocPersistenceN], rfl, fun m _ => rfl, rfl, rfl,
      rfl, rfl, rfl, rfl⟩
  | succ n ih =>
    obtain ⟨h1, h2, h3, h4, h5, h6, h7, h8, h9⟩ := ih
    refine ⟨?_, ?_, ?_, ?_, ?_, ?_, ?_, ?_, ?_⟩
    · simp only [allocPersistenceN, AllocatePersistenceThrdId]
      rw [h1, h2, h5, List.range_succ, List.map_append]
      simp
    · simp only [allocPersistenceN, AllocatePersistenceThrdId, if_pos]
      rw [h2]
      omega
    · intro m hm
      simp only [allocPersistenceN, AllocatePersistenceThrdId,
        if_neg hm]
      exact h3 m hm
    · exact h4
    · exact h5
    · exact h6
    · exact h7
    · exact h8
    · exact h9

lemma allocBoxingN_spec (s : IDMgr) (mid n : Nat) :
    (allocBoxingN s mid n).1 =
      (List.range n).map (fun j => s.device_num_per_machine + 1 +
        s.persistence_thrd_num + (s.boxing_thrd_offset mid + j)) ∧
    (allocBoxingN s mid n).2.boxing_thrd_offset mid =
      s.boxing_thrd_offset mid + n ∧
    (∀ m, m ≠ mid →
      (allocBoxingN s mid n).2.boxing_thrd_offset m =
        s.boxing_thrd_offset m) ∧
    (allocBoxingN s mid n).2.machine_names = s.machine_names ∧
    (allocBoxingN s mid n).2.device_num_per_machine =
      s.device_num_per_machine ∧
    (allocBoxingN s mid n).2.persistence_thrd_num =
      s.persistence_thrd_num ∧
    (allocBoxingN s mid n).2.regst_desc_id_count =
      s.regst_desc_id_count ∧
    (allocBoxingN s mid n).2.persistence_thrd_offset =
      s.persistence_thrd_offset ∧
    (allocBoxingN s mid n).2.thread_id2num_of_tasks =
      s.thread_id2num_of_tasks := by
  induction n with
  | zero =>
    exact ⟨by simp [allocBoxingN], rfl, fun m _ => rfl, rfl, rfl,
      rfl, rfl, rfl, rfl⟩
  | succ n ih =>
    obtain ⟨h1, h2, h3, h4, h5, h6, h7, h8, h9⟩ := ih
    refine ⟨?_, ?_, ?_, ?_, ?_, ?_, ?_, ?_, ?_⟩
    · simp only [allocBoxingN, AllocateBoxingThrdId]
      rw [h1, h2, h5, h6, List.range_succ, List.map_append]
      simp
    · simp only [allocBoxingN, AllocateBoxingThrdId, if_pos]
      rw [h2]
      omega
    · intro m hm
      simp only [allocBoxingN, AllocateBoxingThrdId, if_neg hm]
      exact h3 m hm
    · exact h4
    · exact h5
    · exact h6
    · exact h7
    · exact h8
    · exact h9

/-- Claim C4: for a fixed machine, the device-thread band
`[0, device_count)`, the comm-net id, the allocated persistence-thread
ids and the allocated boxing-thread ids are pairwise disjoint (as long as
the persistence allocations stay inside the persistence band's capacity);
`CommNetThrdId` is the same fixed constant on every call and does not
depend on the machine; and every allocator call returns the next unused
id of its own band and advances only its own machine's offset. -/
theorem thread_role_bands (names : List String) (dev pcap mid nP nB : Nat)
    (hcap : nP ≤ pcap) :
    (allocPersistenceN (initIDMgr names dev pcap) mid nP).1 =
      (List.range nP).map (fun i => dev + 1 + i) ∧
    (allocBoxingN
      (allocPersistenceN (initIDMgr names dev pcap) mid nP).2 mid nB).1 =
      (List.range nB).map (fun j => dev + 1 + pcap + j) ∧
    (∀ x ∈ (allocPersistenceN (initIDMgr names dev pcap) mid nP).1,
      dev < x) ∧
    (∀ x ∈ (allocBoxingN
      (allocPersistenceN (initIDMgr names dev pcap) mid nP).2 mid nB).1,
      dev < x) ∧
    (∀ x ∈ (allocPersistenceN (initIDMgr names dev pcap) mid nP).1,
      x ∉ (allocBoxingN
        (allocPersistenceN (initIDMgr names dev pcap) mid nP).2
          mid nB).1) ∧
    CommNetThrdId (initIDMgr names dev pcap) = dev ∧
    CommNetThrdId
      (allocPersistenceN (initIDMgr names dev pcap) mid nP).2 = dev ∧
    CommNetThrdId (allocBoxingN
      (allocPersistenceN (initIDMgr names dev pcap) mid nP).2
        mid nB).2 = dev ∧
    (∀ (s : IDMgr) (m2 : Nat),
      (AllocatePersistenceThrdId s m2).1 =
        s.device_num_per_machine + 1 + s.persistence_thrd_offset m2 ∧
      (AllocatePersistenceThrdId s m2).2.persistence_thrd_offset m2 =
        s.persistence_thrd_offset m2 + 1 ∧
      (∀ m3, m3 ≠ m2 →
        (AllocatePersistenceThrdId s m2).2.persistence_thrd_offset m3 =
          s.persistence_thrd_offset m3) ∧
      (AllocatePersistenceThrdId s m2).2.boxing_thrd_offset =
        s.boxing_thrd_offset ∧
      (AllocateBoxingThrdId s m2).1 = s.device_num_per_machine + 1 +
        s.persistence_thrd_num + s.boxing_thrd_offset m2 ∧
      (AllocateBoxingThrdId s m2).2.boxing_thrd_offset m2 =
        s.boxing_thrd_offset m2 + 1 ∧
      (∀ m3, m3 ≠ m2 →
        (AllocateBoxingThrdId s m2).2.boxing_thrd_offset m3 =
          s.boxing_thrd_offset m3) ∧
      (AllocateBoxingThrdId s m2).2.persistence_thrd_offset =
        s.persistence_thrd_offset ∧
      CommNetThrdId (AllocatePersistenceThrdId s m2).2 = CommNetThrdId s ∧
      CommNetThrdId (AllocateBoxingThrdId s m2).2 = CommNetThrdId s) := by
  obtain ⟨p1, p2, p3, p4, p5, p6, p7, p8, p9⟩ :=
    allocPersistenceN_spec (initIDMgr names dev pcap) mid nP
  obtain ⟨b1, b2, b3, b4, b5, b6, b7, b8, b9⟩ :=
    allocBoxingN_spec
      (allocPersistenceN (initIDMgr names dev pcap) mid nP).2 mid nB
  have hA : (allocPersistenceN (initIDMgr names dev pcap) mid nP).1 =
      (List.range nP).map (fun i => dev + 1 + i) := by
    rw [p1]
    simp [initIDMgr]
  have hB : (allocBoxingN
      (allocPersistenceN (initIDMgr names dev pcap) mid nP).2
        mid nB).1 = (List.range nB).map (fun j => dev + 1 + pcap + j) := by
    rw [b1, p5, p6, p8]
    simp [initIDMgr]
  refine ⟨hA, hB, ?_, ?_, ?_, rfl, ?_, ?_, ?_⟩
  · intro x hx
    rw [hA] at hx
    obtain ⟨i, -, rfl⟩ := List.mem_map.mp hx
    omega
  · intro x hx
    rw [hB] at hx
    obtain ⟨j, -, rfl⟩ := List.mem_map.mp hx
    omega
  · intro x hx hx2
    rw [hA] at hx
    rw [hB] at hx2
    obtain ⟨i, hi, rfl⟩ := List.mem_map.mp hx
    obtain ⟨j, hj, hj2⟩ := List.mem_map.mp hx2
    have hi' : i < nP := List.mem_range.mp hi
    omega
  · show (allocPersistenceN
        (initIDMgr names dev pcap) mid nP).2.device_num_per_machine = dev
    rw [p5]
    rfl
  · show (allocBoxingN
        (allocPersistenceN (initIDMgr names dev pcap) mid nP).2
          mid nB).2.device_num_per_machine = dev
    rw [b5, p5]
    rfl
  · intro s m2
    refine ⟨rfl, by simp [AllocatePersistenceThrdId], ?_, rfl, rfl,
      by simp [AllocateBoxingThrdId], ?_, rfl, rfl, rfl⟩
    · intro m3 hm3
      simp [AllocatePersistenceThrdId, if_neg hm3]
    · intro m3 hm3
      simp [AllocateBoxingThrdId, if_neg hm3]

theorem thread_role_bands_witness :
    (2 : Nat) ≤ 2 ∧
    ((allocPersistenceN (initIDMgr [ "m0", "m1" ] 4 2) 1 2).1 =
      (List.range 2).map (fun i => 4 + 1 + i) ∧
    (allocBoxingN
      (allocPersistenceN (initIDMgr [ "m0", "m1" ] 4 2) 1 2).2 1 2).1 =
      (List.range 2).map (fun j => 4 + 1 + 2 + j) ∧
    (∀ x ∈ (allocPersistenceN (initIDMgr [ "m0", "m1" ] 4 2) 1 2).1,
      4 < x) ∧
    (∀ x ∈ (allocBoxingN
      (allocPersistenceN (initIDMgr [ "m0", "m1" ] 4 2) 1 2).2 1 2).1,
      4 < x) ∧
    (∀ x ∈ (allocPersistenceN (initIDMgr [ "m0", "m1" ] 4 2) 1 2).1,
      x ∉ (allocBoxingN
        (allocPersistenceN (initIDMgr [ "m0", "m1" ] 4 2) 1 2).2
          1 2).1) ∧
    CommNetThrdId (initIDMgr [ "m0", "m1" ] 4 2) = 4 ∧
    CommNetThrdId
      (allocPersistenceN (initIDMgr [ "m0", "m1" ] 4 2) 1 2).2 = 4 ∧
    CommNetThrdId (allocBoxingN
      (allocPersistenceN (initIDMgr [ "m0", "m1" ] 4 2) 1 2).2
        1 2).2 = 4 ∧
    (∀ (s : IDMgr) (m2 : Nat),
      (AllocatePersistenceThrdId s m2).1 =
        s.device_num_per_machine + 1 + s.persistence_thrd_offset m2 ∧
      (AllocatePersistenceThrdId s m2).2.persistence_thrd_offset m2 =
        s.persistence_thrd_offset m2 + 1 ∧
      (∀ m3, m3 ≠ m2 →
        (AllocatePersistenceThrdId s m2).2.persistence_thrd_offset m3 =
          s.persistence_thrd_offset m3) ∧
      (AllocatePersistenceThrdId s m2).2.boxing_thrd_offset =
        s.boxing_thrd_offset ∧
      (AllocateBoxingThrdId s m2).1 = s.device_num_per_machine + 1 +
        s.persistence_thrd_num + s.boxing_thrd_offset m2 ∧
      (AllocateBoxingThrdId s m2).2.boxing_thrd_offset m2 =
        s.boxing_thrd_offset m2 + 1 ∧
      (∀ m3, m3 ≠ m2 →
        (AllocateBoxingThrdId s m2).2.boxing_thrd_offset m3 =
          s.boxing_thrd_offset m3) ∧
      (AllocateBoxingThrdId s m2).2.persistence_thrd_offset =
        s.persistence_thrd_offset ∧
      CommNetThrdId (AllocatePersistenceThrdId s m2).2 =
        CommNetThrdId s ∧
      CommNetThrdId (AllocateBoxingThrdId s m2).2 = CommNetThrdId s)) :=
  ⟨by decide, thread_role_bands [ "m0", "m1" ] 4 2 1 2 2 (by decide)⟩

/-! ### The CPU offset-to-nd-index kernel -/

/-- Modelled from the spec: the helper `DoOffsetToIndex` called by the
CPU functor (its definition lives in `offset_to_ndindex_util.h`, not
among the sampled sources) is the stateless elementwise transform that
converts a flat offset into a multi-dimensional index: processing the
dimensions from the innermost outwards, each output component is the
running quotient's remainder by its dimension and the quotient is
carried outwards — the mixed-radix decomposition of the offset with
respect to `dims`. -/
def offsetToNdIndexAux : List Nat → Nat → Nat × List Nat
  | [], offset => (offset, [])
  | d :: rest, offset =>
    let p := offsetToNdIndexAux rest offset
    (p.1 / d, p.1 % d :: p.2)

def DoOffsetToIndex (dims : List Nat) (offset : Nat) : List Nat :=
  (offsetToNdIndexAux dims offset).2

/-- The CPU functor `OffsetToNdIndexFunctor<DeviceType::kCPU, T>`
(`offset_to_ndindex_util.cpp` lines 21-26): its call operator simply
delegates to `DoOffsetToIndex` on the dims array and the flat offset. -/
def OffsetToNdIndexFunctorCPU (dims : List Nat) (offset : Nat) :
    List Nat :=
  DoOffsetToIndex dims offset

/-- Recomposition of a multi-dimensional index against `dims`
(row-major): the inverse direction of the mixed-radix decomposition. -/
def NdIndexToOffset (dims index : List Nat) : Nat :=
  (dims.zip index).foldl (fun acc p => acc * p.1 + p.2) 0

lemma offsetToNdIndexAux_fst (dims : List Nat) (offset : Nat) :
    (offsetToNdIndexAux dims offset).1 = offset / dims.prod := by
  induction dims with
  | nil => simp [offsetToNdIndexAux]
  | cons d rest ih =>
    simp only [offsetToNdIndexAux, ih, List.prod_cons]
    rw [Nat.div_div_eq_div_mul, Nat.mul_comm]

lemma offsetToNdIndexAux_length (dims : List Nat) (offset : Nat) :
    (offsetToNdIndexAux dims offset).2.length = dims.length := by
  induction dims with
  | nil => rfl
  | cons d rest ih => simp [offsetToNdIndexAux, ih]

lemma foldl_mul_add (dims index : List Nat)
    (h : index.length = dims.length) (a : Nat) :
    (dims.zip index).foldl (fun acc p => acc * p.1 + p.2) a =
      a * dims.prod +
        (dims.zip index).foldl (fun acc p => acc * p.1 + p.2) 0 := by
  induction dims generalizing index a with
  | nil => simp
  | cons d rest ih =>
    cases index with
    | nil => simp at h
    | cons i irest =>
      have h' : irest.length = rest.length := by simpa using h
      simp only [List.zip_cons_cons, List.foldl_cons, List.prod_cons]
      rw [ih irest h' (a * d + i), ih irest h' (0 * d + i)]
      ring

lemma offsetToNdIndexAux_recompose (dims : List Nat) (offset : Nat)
    (hpos : ∀ d ∈ dims, 0 < d) :
    NdIndexToOffset dims (offsetToNdIndexAux dims offset).2 =
      offset % dims.prod := by
  induction dims with
  | nil => simp [NdIndexToOffset, offsetToNdIndexAux, Nat.mod_one]
  | cons d rest ih =>
    have hrest : ∀ x ∈ rest, 0 < x := fun x hx => hpos x (by simp [hx])
    simp only [offsetToNdIndexAux, NdIndexToOffset, List.zip_cons_cons,
      List.foldl_cons]
    rw [foldl_mul_add rest (offsetToNdIndexAux rest offset).2
      (offsetToNdIndexAux_length rest offset) _]
    have hih : ((rest.zip (offsetToNdIndexAux rest offset).2).foldl
        (fun acc p => acc * p.1 + p.2) 0) = offset % rest.prod := ih hrest
    rw [hih, offsetToNdIndexAux_fst, List.prod_cons,
      Nat.mul_comm d rest.prod, Nat.mod_mul]
    ring

/-- Claim C9: the CPU `OffsetToNdIndexFunctor` is a pure elementwise
transform whose output is the mixed-radix decomposition of the flat
offset with respect to `dims`: it delegates to `DoOffsetToIndex`,
produces one index component per dimension, and recomposing the output
against `dims` yields the input offset (determinism is inherent: the
model is a pure function of `dims` and `offset`). -/
theorem offset_to_ndindex_correct (dims : List Nat) (offset : Nat)
    (h : offset < dims.prod) :
    OffsetToNdIndexFunctorCPU dims offset = DoOffsetToIndex dims offset ∧
    (OffsetToNdIndexFunctorCPU dims offset).length = dims.length ∧
    NdIndexToOffset dims (OffsetToNdIndexFunctorCPU dims offset) =
      offset := by
  have hpos : ∀ d ∈ dims, 0 < d := by
    intro d hd
    rcases Nat.eq_zero_or_pos d with rfl | hp
    · exact absurd h (by simp [List.prod_eq_zero hd])
    · exact hp
  refine ⟨rfl, offsetToNdIndexAux_length dims offset, ?_⟩
  have := offsetToNdIndexAux_recompose dims offset hpos
  rw [OffsetToNdIndexFunctorCPU, DoOffsetToIndex, this,
    Nat.mod_eq_of_lt h]

theorem offset_to_ndindex_correct_witness :
    (17 : Nat) < ([2, 3, 4] : List Nat).prod ∧
    (OffsetToNdIndexFunctorCPU [2, 3, 4] 17 =
        DoOffsetToIndex [2, 3, 4] 17 ∧
      (OffsetToNdIndexFunctorCPU [2, 3, 4] 17).length =
        ([2, 3, 4] : List Nat).length ∧
      NdIndexToOffset [2, 3, 4] (OffsetToNdIndexFunctorCPU [2, 3, 4] 17) =
        17) :=
  ⟨by decide, offset_to_ndindex_correct [2, 3, 4] 17 (by decide)⟩

end Oneflow
